import Mathlib

/-!
Verification of the session / view / snapshot routing core of the
`internal/lsp/cache` package (file `session.go`) and of the option-setting
logic of `internal/lsp/source/options.go`, via a shallow embedding in Lean.

URIs are modelled as lists of characters; `strings.HasPrefix(a, b)` becomes
`List.isPrefixOf b a`.  Go slices become Lean lists, Go maps become
association lists, and fallible functions return `Except`.
-/

namespace Cache

/-- A URI, as in `internal/span`: an uninterpreted string of characters. -/
abbrev URI := List Char

/-- The part of a `view` that session routing consults: its registration
identity (`id`, from the global `viewIndex` counter) and its root `folder`.
`Folder()` returns `folder`. -/
structure RView where
  vid : Nat
  folder : URI
  deriving DecidableEq, Repr

/-- The part of the `session` struct that routing uses: the slice `views`
(in registration order) and the memo map `viewMap` (an association list:
`viewMap.lookup` is the map read, consing is the map write). -/
structure RSession where
  views : List RView
  viewMap : List (URI × RView)
  nextId : Nat
  deriving DecidableEq, Repr

/-- One iteration of the loop in `session.bestView`:
`if longest != nil && len(longest.Folder()) > len(view.Folder()) { continue }`
then `if strings.HasPrefix(string(uri), string(view.Folder())) { longest = view }`. -/
def bestStep (uri : URI) (longest : Option RView) (v : RView) : Option RView :=
  match longest with
  | some l =>
    if v.folder.length < l.folder.length then some l
    else if v.folder.isPrefixOf uri then some v else some l
  | none => if v.folder.isPrefixOf uri then some v else none

/-- The whole loop of `session.bestView`, folding `bestStep` over the views. -/
def bestFold (uri : URI) (views : List RView) : Option RView :=
  views.foldl (bestStep uri) none

/-- `session.bestView`: error when there are no views; otherwise the loop
result, falling back to `s.views[0]` when no folder is a prefix of the URI. -/
def bestView (s : RSession) (uri : URI) : Except String RView :=
  match s.views with
  | [] => .error "no views in the session"
  | v0 :: _ =>
    match bestFold uri s.views with
    | some v => .ok v
    | none => .ok v0

/-- `session.viewOf`: consult the memo `viewMap`; on a miss, call `bestView`
and memoize a success.  Returns the (possibly) updated session and the
result. -/
def viewOf (s : RSession) (uri : URI) : RSession × Except String RView :=
  match s.viewMap.lookup uri with
  | some v => (s, .ok v)
  | none =>
    match bestView s uri with
    | .error e => (s, .error e)
    | .ok v => ({ s with viewMap := (uri, v) :: s.viewMap }, .ok v)

/-- `session.viewsOf`: all views whose folder is a prefix of the URI, in
registration order. -/
def viewsOf (s : RSession) (uri : URI) : List RView :=
  s.views.filter (fun v => v.folder.isPrefixOf uri)

/-- `session.NewView` as far as the view list and memo are concerned:
`createView` allocates a fresh view id for the folder, the view is appended
to `s.views`, and the memo `viewMap` is reset to the empty map. -/
def newViewOp (s : RSession) (folder : URI) : RSession :=
  { views := s.views ++ [⟨s.nextId, folder⟩]
    viewMap := []
    nextId := s.nextId + 1 }

/-- The index search inside `session.dropView` (`v == s.views[i]`, pointer
identity, modelled by the unique view id). -/
def dropIdx (s : RSession) (v : RView) : Option Nat :=
  s.views.findIdx? (fun w => w.vid == v.vid)

/-- The swap-delete in `session.removeView`:
`s.views[i] = s.views[len-1]; s.views = s.views[:len-1]`. -/
def swapDelete (l : List RView) (i : Nat) : List RView :=
  match l.getLast? with
  | none => l
  | some last => (l.set i last).dropLast

/-- `session.removeView`: `dropView` always resets the memo first; if the
view is found at index `i`, it is swap-deleted from the slice (on the error
path only the memo reset has happened). -/
def removeViewOp (s : RSession) (v : RView) : RSession :=
  match dropIdx s v with
  | none => { s with viewMap := [] }
  | some i => { s with views := swapDelete s.views i, viewMap := [] }

/-- `session.updateView`: `dropView` (memo reset) then `createView` with the
same folder (which never fails, see `createView` below) substituted at the
old index. -/
def updateViewOp (s : RSession) (v : RView) : RSession :=
  match dropIdx s v with
  | none => { s with viewMap := [] }
  | some i =>
    { views := s.views.set i ⟨s.nextId, v.folder⟩
      viewMap := []
      nextId := s.nextId + 1 }

/-- `session.Shutdown`: views and memo are cleared. -/
def shutdownOp (s : RSession) : RSession :=
  { s with views := [], viewMap := [] }

/-- The session states reachable from a fresh session through the operations
that touch the view list or the URI-to-view memo. -/
inductive Reachable : RSession → Prop
  | init : Reachable ⟨[], [], 0⟩
  | newView {s} (folder : URI) : Reachable s → Reachable (newViewOp s folder)
  | removeView {s} (v : RView) : Reachable s → Reachable (removeViewOp s v)
  | updateView {s} (v : RView) : Reachable s → Reachable (updateViewOp s v)
  | shutdown {s} : Reachable s → Reachable (shutdownOp s)
  | viewOfStep {s} (uri : URI) : Reachable s → Reachable (viewOf s uri).1

/-- A matching view (folder a prefix of the URI) never leaves the loop
accumulator empty, and the accumulator's folder is at least as long as the
matching view's. -/
theorem bestStep_matching (uri : URI) (acc : Option RView) (x : RView)
    (hx : x.folder.isPrefixOf uri = true) :
    ∃ m, bestStep uri acc x = some m ∧ x.folder.length ≤ m.folder.length := by
  cases acc with
  | none => exact ⟨x, by simp [bestStep, hx], le_refl _⟩
  | some l =>
    by_cases hlt : x.folder.length < l.folder.length
    · exact ⟨l, by simp [bestStep, hlt], le_of_lt hlt⟩
    · exact ⟨x, by simp [bestStep, hlt, hx], le_refl _⟩

/-- One loop step never shortens the accumulator's folder. -/
theorem bestStep_mono (uri : URI) (l : RView) (x : RView) :
    ∃ m, bestStep uri (some l) x = some m ∧ l.folder.length ≤ m.folder.length := by
  by_cases hlt : x.folder.length < l.folder.length
  · exact ⟨l, by simp [bestStep, hlt], le_refl _⟩
  · by_cases hp : x.folder.isPrefixOf uri = true
    · exact ⟨x, by simp [bestStep, hlt, hp], le_of_not_lt hlt⟩
    · exact ⟨l, by simp [bestStep, hlt, hp], le_refl _⟩

/-- The loop never shortens the accumulator's folder. -/
theorem bestFold_mono (uri : URI) (views : List RView) (l : RView) :
    ∃ m, views.foldl (bestStep uri) (some l) = some m ∧
      l.folder.length ≤ m.folder.length := by
  induction views generalizing l with
  | nil => exact ⟨l, rfl, le_refl _⟩
  | cons x xs ih =>
    obtain ⟨m, hm, hlm⟩ := bestStep_mono uri l x
    obtain ⟨m', hm', hmm'⟩ := ih m
    exact ⟨m', by simpa [hm] using hm', le_trans hlm hmm'⟩

/-- Whatever the loop returns is either the initial accumulator or one of
the processed views whose folder is a prefix of the URI. -/
theorem bestFold_mem (uri : URI) (views : List RView) (acc : Option RView) (v : RView)
    (h : views.foldl (bestStep uri) acc = some v) :
    acc = some v ∨ (v ∈ views ∧ v.folder.isPrefixOf uri = true) := by
  induction views generalizing acc with
  | nil => exact Or.inl h
  | cons x xs ih =>
    rcases ih (bestStep uri acc x) (by simpa using h) with hstep | ⟨hmem, hpre⟩
    · cases acc with
      | none =>
        by_cases hp : x.folder.isPrefixOf uri = true
        · simp [bestStep, hp] at hstep
          exact Or.inr ⟨by simp [hstep.symm], hstep ▸ hp⟩
        · simp [bestStep, hp] at hstep
      | some l =>
        by_cases hlt : x.folder.length < l.folder.length
        · simp [bestStep, hlt] at hstep
          exact Or.inl (by simp [hstep])
        · by_cases hp : x.folder.isPrefixOf uri = true
          · simp [bestStep, hlt, hp] at hstep
            exact Or.inr ⟨by simp [hstep.symm], hstep ▸ hp⟩
          · simp [bestStep, hlt, hp] at hstep
            exact Or.inl (by simp [hstep])
    · exact Or.inr ⟨List.mem_cons_of_mem _ hmem, hpre⟩

/-- The loop result's folder is at least as long as the folder of every
matching view in the list. -/
theorem bestFold_maximal (uri : URI) (views : List RView) (acc : Option RView) (v : RView)
    (h : views.foldl (bestStep uri) acc = some v) :
    ∀ w ∈ views, w.folder.isPrefixOf uri = true →
      w.folder.length ≤ v.folder.length := by
  induction views generalizing acc with
  | nil => intro w hw; exact absurd hw (List.not_mem_nil w)
  | cons x xs ih =>
    intro w hw hwp
    rcases List.mem_cons.mp hw with rfl | hw'
    · obtain ⟨m, hm, hxm⟩ := bestStep_matching uri acc w hwp
      obtain ⟨m', hm', hmm'⟩ := bestFold_mono uri xs m
      have hmv : m' = v := by
        have : some m' = some v := by rw [← hm']; simpa [hm] using h
        exact Option.some.inj this
      exact le_trans hxm (hmv ▸ hmm')
    · exact ih (bestStep uri acc x) (by simpa using h) w hw' hwp

/-- If no view in the list matches, the loop leaves the accumulator alone. -/
theorem bestFold_no_match (uri : URI) (views : List RView) (acc : Option RView)
    (h : ∀ w ∈ views, ¬ w.folder.isPrefixOf uri = true) :
    views.foldl (bestStep uri) acc = acc := by
  induction views generalizing acc with
  | nil => rfl
  | cons x xs ih =>
    have hx : ¬ x.folder.isPrefixOf uri = true := h x (List.mem_cons_self x xs)
    have hstep : bestStep uri acc x = acc := by
      cases acc with
      | none => simp [bestStep, hx]
      | some l =>
        by_cases hlt : x.folder.length < l.folder.length
        · simp [bestStep, hlt]
        · simp [bestStep, hlt, hx]
    rw [List.foldl_cons, hstep]
    exact ih acc (fun w hw => h w (List.mem_cons_of_mem _ hw))

/-- Exact characterization of the loop result: given a decomposition
`xs ++ w :: ys` where `w` matches, every earlier match is no longer than
`w`, and every later match is strictly shorter, the loop picks `w`. -/
theorem bestFold_pick (uri : URI) (xs ys : List RView) (w : RView)
    (hw : w.folder.isPrefixOf uri = true)
    (hxs : ∀ x ∈ xs, x.folder.isPrefixOf uri = true →
      x.folder.length ≤ w.folder.length)
    (hys : ∀ y ∈ ys, y.folder.isPrefixOf uri = true →
      y.folder.length < w.folder.length) :
    bestFold uri (xs ++ w :: ys) = some w := by
  have habsorb : ∀ (l : List RView),
      (∀ y ∈ l, y.folder.isPrefixOf uri = true →
        y.folder.length < w.folder.length) →
      l.foldl (bestStep uri) (some w) = some w := by
    intro l
    induction l with
    | nil => intro _; rfl
    | cons y ys ih =>
      intro hl
      have hstep : bestStep uri (some w) y = some w := by
        by_cases hlt : y.folder.length < w.folder.length
        · simp [bestStep, hlt]
        · by_cases hyp : y.folder.isPrefixOf uri = true
          · exact absurd (hl y (List.mem_cons_self y ys) hyp) hlt
          · simp [bestStep, hlt, hyp]
      rw [List.foldl_cons, hstep]
      exact ih (fun z hz => hl z (List.mem_cons_of_mem _ hz))
  have hacc : ∀ m, xs.foldl (bestStep uri) none = m →
      bestStep uri m w = some w := by
    intro m hm
    cases m with
    | none => simp [bestStep, hw]
    | some l =>
      rcases bestFold_mem uri xs none l hm with hcontra | ⟨hlmem, hlpre⟩
      · exact absurd hcontra (by simp)
      · have hle : l.folder.length ≤ w.folder.length := hxs l hlmem hlpre
        have hnlt : ¬ w.folder.length < l.folder.length := not_lt_of_le hle
        simp [bestStep, hnlt, hw]
  unfold bestFold
  rw [List.foldl_append, List.foldl_cons,
    hacc (xs.foldl (bestStep uri) none) rfl]
  exact habsorb ys hys

/-- A list holding a matching view makes the loop return some view. -/
theorem bestFold_exists (uri : URI) (views : List RView)
    (hex : ∃ w ∈ views, w.folder.isPrefixOf uri = true) :
    ∃ v, bestFold uri views = some v := by
  obtain ⟨w, hwmem, hwp⟩ := hex
  obtain ⟨xs, ys, rfl⟩ := List.append_of_mem hwmem
  obtain ⟨m, hm, _⟩ := bestStep_matching uri (xs.foldl (bestStep uri) none) w hwp
  obtain ⟨m', hm', _⟩ := bestFold_mono uri ys m
  refine ⟨m', ?_⟩
  unfold bestFold
  rw [List.foldl_append, List.foldl_cons, hm]
  exact hm'

/-- `bestView` returns whatever the loop settles on, when the loop finds a
matching view. -/
theorem bestView_eq_of_fold (s : RSession) (u : URI) (v : RView)
    (hnil : s.views ≠ []) (hv : bestFold u s.views = some v) :
    bestView s u = .ok v := by
  unfold bestView
  cases hvs : s.views with
  | nil => exact absurd hvs hnil
  | cons v0 rest =>
    rw [hvs] at hv
    simp only [hv]

/-- On a memo miss, `viewOf` returns `bestView`'s choice and memoizes it. -/
theorem viewOf_miss_ok (s : RSession) (u : URI) (v : RView)
    (hmiss : s.viewMap.lookup u = none) (hbv : bestView s u = .ok v) :
    viewOf s u = ({ s with viewMap := (u, v) :: s.viewMap }, .ok v) := by
  unfold viewOf
  rw [hmiss, hbv]

/-- C3: for an unresolved URI, when some View's root is a prefix of it,
`viewOf` returns a View whose root is a prefix of the URI of maximal length
among all such Views, and memoizes the answer. -/
theorem viewOf_longest_prefix_wins (s : RSession) (u : URI)
    (hmiss : s.viewMap.lookup u = none)
    (hex : ∃ w ∈ s.views, w.folder.isPrefixOf u = true) :
    ∃ v, (viewOf s u).2 = .ok v ∧
      (viewOf s u).1 = { s with viewMap := (u, v) :: s.viewMap } ∧
      v ∈ s.views ∧ v.folder.isPrefixOf u = true ∧
      ∀ w ∈ s.views, w.folder.isPrefixOf u = true →
        w.folder.length ≤ v.folder.length := by
  obtain ⟨v, hv⟩ := bestFold_exists u s.views hex
  have hnil : s.views ≠ [] := by
    obtain ⟨w, hw, _⟩ := hex
    intro h
    rw [h] at hw
    exact List.not_mem_nil w hw
  have hbv := bestView_eq_of_fold s u v hnil hv
  have hvo := viewOf_miss_ok s u v hmiss hbv
  have hmem := bestFold_mem u s.views none v hv
  refine ⟨v, by rw [hvo], by rw [hvo], ?_, ?_, ?_⟩
  · rcases hmem with hcontra | ⟨h1, _⟩
    · exact absurd hcontra (by simp)
    · exact h1
  · rcases hmem with hcontra | ⟨_, h2⟩
    · exact absurd hcontra (by simp)
    · exact h2
  · exact bestFold_maximal u s.views none v hv

/-- Witness for `viewOf_longest_prefix_wins`: Views rooted at `/a` and
`/a/b`; the file `/a/b/x` resolves to a longest matching root. -/
theorem viewOf_longest_prefix_wins_witness :
    ((⟨[⟨0, ['/', 'a']⟩, ⟨1, ['/', 'a', '/', 'b']⟩], [], 2⟩ :
        RSession).viewMap.lookup ['/', 'a', '/', 'b', '/', 'x'] = none) ∧
    (∃ w ∈ (⟨[⟨0, ['/', 'a']⟩, ⟨1, ['/', 'a', '/', 'b']⟩], [], 2⟩ :
        RSession).views,
      w.folder.isPrefixOf ['/', 'a', '/', 'b', '/', 'x'] = true) ∧
    (∃ v, (viewOf ⟨[⟨0, ['/', 'a']⟩, ⟨1, ['/', 'a', '/', 'b']⟩], [], 2⟩
        ['/', 'a', '/', 'b', '/', 'x']).2 = .ok v ∧
      (viewOf ⟨[⟨0, ['/', 'a']⟩, ⟨1, ['/', 'a', '/', 'b']⟩], [], 2⟩
        ['/', 'a', '/', 'b', '/', 'x']).1 =
        { (⟨[⟨0, ['/', 'a']⟩, ⟨1, ['/', 'a', '/', 'b']⟩], [], 2⟩ : RSession)
          with viewMap := [(['/', 'a', '/', 'b', '/', 'x'], v)] } ∧
      v ∈ (⟨[⟨0, ['/', 'a']⟩, ⟨1, ['/', 'a', '/', 'b']⟩], [], 2⟩ :
        RSession).views ∧
      v.folder.isPrefixOf ['/', 'a', '/', 'b', '/', 'x'] = true ∧
      ∀ w ∈ (⟨[⟨0, ['/', 'a']⟩, ⟨1, ['/', 'a', '/', 'b']⟩], [], 2⟩ :
        RSession).views,
        w.folder.isPrefixOf ['/', 'a', '/', 'b', '/', 'x'] = true →
          w.folder.length ≤ v.folder.length) :=
  ⟨by decide, by decide,
    viewOf_longest_prefix_wins _ _ (by decide) (by decide)⟩

/-- Counterexample to C4: a Session with one View rooted `/a` and the URI
`/b/x`, which no View root prefixes; `viewOf` returns that View with a nil
error instead of surfacing NotFound. -/
theorem viewOf_no_match_counterexample :
    (∀ w ∈ (⟨[⟨0, ['/', 'a']⟩], [], 1⟩ : RSession).views,
      ¬ w.folder.isPrefixOf ['/', 'b', '/', 'x'] = true) ∧
    (viewOf ⟨[⟨0, ['/', 'a']⟩], [], 1⟩ ['/', 'b', '/', 'x']).2 =
      .ok ⟨0, ['/', 'a']⟩ :=
  ⟨by decide, by rfl⟩

/-- C4 amended: on a memo miss for a URI that no View root prefixes,
`viewOf` surfaces the routing error only when the Session has no Views at
all; otherwise it falls back to the first-registered View. -/
theorem viewOf_no_match_fallback (s : RSession) (u : URI)
    (hmiss : s.viewMap.lookup u = none)
    (hnone : ∀ w ∈ s.views, ¬ w.folder.isPrefixOf u = true) :
    (viewOf s u).2 = match s.views with
      | [] => .error "no views in the session"
      | v0 :: _ => .ok v0 := by
  have hfold : bestFold u s.views = none :=
    bestFold_no_match u s.views none hnone
  unfold viewOf bestView
  rw [hmiss]
  cases hvs : s.views with
  | nil => rfl
  | cons v0 rest =>
    rw [hvs] at hfold
    simp only [hfold]

/-- Witness for `viewOf_no_match_fallback`: one View rooted `/a`, URI
`/b/x`; the fallback picks the first-registered View. -/
theorem viewOf_no_match_fallback_witness :
    ((⟨[⟨0, ['/', 'a']⟩], [], 1⟩ :
        RSession).viewMap.lookup ['/', 'b', '/', 'x'] = none) ∧
    (∀ w ∈ (⟨[⟨0, ['/', 'a']⟩], [], 1⟩ : RSession).views,
      ¬ w.folder.isPrefixOf ['/', 'b', '/', 'x'] = true) ∧
    ((viewOf ⟨[⟨0, ['/', 'a']⟩], [], 1⟩ ['/', 'b', '/', 'x']).2 =
      match (⟨[⟨0, ['/', 'a']⟩], [], 1⟩ : RSession).views with
        | [] => .error "no views in the session"
        | v0 :: _ => .ok v0) :=
  ⟨by decide, by decide,
    viewOf_no_match_fallback _ _ (by decide) (by decide)⟩

/-- Counterexample to C5: two Views registered over the same root `/a`
(equally long matching prefixes of `/a/x`); `viewOf` returns the
second-registered View (id 1), not the first-registered one (id 0). -/
theorem bestView_tie_counterexample :
    ((['/', 'a'] : URI).isPrefixOf ['/', 'a', '/', 'x'] = true) ∧
    (viewOf ⟨[⟨0, ['/', 'a']⟩, ⟨1, ['/', 'a']⟩], [], 2⟩
      ['/', 'a', '/', 'x']).2 = .ok ⟨1, ['/', 'a']⟩ :=
  ⟨by decide, by rfl⟩

/-- C5 amended: on a memo miss, among matching Views of maximal root
length, `viewOf` picks the last-registered one: if `w` matches, no earlier
match is longer, and every later match is strictly shorter, then `w` is
returned. -/
theorem viewOf_tie_last_registered (s : RSession) (u : URI)
    (xs ys : List RView) (w : RView)
    (hmiss : s.viewMap.lookup u = none)
    (hsplit : s.views = xs ++ w :: ys)
    (hw : w.folder.isPrefixOf u = true)
    (hxs : ∀ x ∈ xs, x.folder.isPrefixOf u = true →
      x.folder.length ≤ w.folder.length)
    (hys : ∀ y ∈ ys, y.folder.isPrefixOf u = true →
      y.folder.length < w.folder.length) :
    (viewOf s u).2 = .ok w := by
  have hfold : bestFold u s.views = some w := by
    rw [hsplit]
    exact bestFold_pick u xs ys w hw hxs hys
  have hnil : s.views ≠ [] := by
    rw [hsplit]
    exact List.append_ne_nil_of_right_ne_nil _ (List.cons_ne_nil _ _)
  have hbv := bestView_eq_of_fold s u w hnil hfold
  rw [viewOf_miss_ok s u w hmiss hbv]

/-- Witness for `viewOf_tie_last_registered`: two Views over `/a`, the
later one (id 1) wins the tie for `/a/x`. -/
theorem viewOf_tie_last_registered_witness :
    ((⟨[⟨0, ['/', 'a']⟩, ⟨1, ['/', 'a']⟩], [], 2⟩ :
        RSession).viewMap.lookup ['/', 'a', '/', 'x'] = none) ∧
    ((⟨[⟨0, ['/', 'a']⟩, ⟨1, ['/', 'a']⟩], [], 2⟩ : RSession).views =
      [⟨0, ['/', 'a']⟩] ++ ⟨1, ['/', 'a']⟩ :: []) ∧
    (viewOf ⟨[⟨0, ['/', 'a']⟩, ⟨1, ['/', 'a']⟩], [], 2⟩
      ['/', 'a', '/', 'x']).2 = .ok ⟨1, ['/', 'a']⟩ :=
  ⟨by decide, by decide,
    viewOf_tie_last_registered _ _ [⟨0, ['/', 'a']⟩] [] ⟨1, ['/', 'a']⟩
      (by decide) (by decide) (by decide)
      (by decide) (by decide)⟩

/-- The first component returned by `viewOf` is either the unchanged
session or the session with the successful lookup memoized. -/
theorem viewOf_fst (s : RSession) (uri : URI) :
    (viewOf s uri).1 = s ∨
    ∃ w, bestView s uri = .ok w ∧
      (viewOf s uri).1 = { s with viewMap := (uri, w) :: s.viewMap } := by
  unfold viewOf
  cases s.viewMap.lookup uri with
  | some w => exact Or.inl rfl
  | none =>
    cases hbv : bestView s uri with
    | error e => exact Or.inl rfl
    | ok w => exact Or.inr ⟨w, rfl, rfl⟩

/-- C6: in every reachable session state the memo is consistent with the
current View set: each memoized entry is exactly what `bestView` computes
over the session's Views. -/
theorem viewMap_consistent (s : RSession) (h : Reachable s) :
    ∀ u v, (u, v) ∈ s.viewMap → bestView s u = .ok v := by
  induction h with
  | init =>
    intro u v hm
    exact absurd hm (List.not_mem_nil _)
  | @newView s' folder h ih =>
    intro u v hm
    exact absurd hm (by simp [newViewOp])
  | @removeView s' v' h ih =>
    intro u v hm
    have : (removeViewOp s' v').viewMap = [] := by
      unfold removeViewOp
      cases dropIdx s' v' <;> rfl
    rw [this] at hm
    exact absurd hm (List.not_mem_nil _)
  | @updateView s' v' h ih =>
    intro u v hm
    have : (updateViewOp s' v').viewMap = [] := by
      unfold updateViewOp
      cases dropIdx s' v' <;> rfl
    rw [this] at hm
    exact absurd hm (List.not_mem_nil _)
  | @shutdown s' h ih =>
    intro u v hm
    exact absurd hm (by simp [shutdownOp])
  | @viewOfStep s' uri h ih =>
    intro u v hm
    rcases viewOf_fst s' uri with heq | ⟨w, hw, heq⟩
    · rw [heq] at hm ⊢
      exact ih u v hm
    · rw [heq] at hm ⊢
      rcases List.mem_cons.mp hm with hpair | hmem
      · injection hpair with h1 h2
        subst h1; subst h2
        exact hw
      · exact ih u v hmem

/-- Witness for `viewMap_consistent`: register a View over `/a`, resolve
`/a/x` (which memoizes), and check the memoized entry against `bestView`. -/
theorem viewMap_consistent_witness :
    ((['/', 'a', '/', 'x'], (⟨0, ['/', 'a']⟩ : RView)) ∈
      ((viewOf (newViewOp ⟨[], [], 0⟩ ['/', 'a'])
        ['/', 'a', '/', 'x']).1).viewMap) ∧
    bestView ((viewOf (newViewOp ⟨[], [], 0⟩ ['/', 'a'])
        ['/', 'a', '/', 'x']).1) ['/', 'a', '/', 'x'] =
      .ok ⟨0, ['/', 'a']⟩ :=
  ⟨by decide,
    viewMap_consistent _
      (.viewOfStep _ (.newView _ .init)) _ _ (by decide)⟩

/-- `source.FileAction`. -/
inductive FileAction
  | aOpen | aChange | aClose | aSave | aUnknown
  deriving DecidableEq, Repr

/-- `source.FileKind`. -/
inductive FileKind
  | goFile | modFile | sumFile | unknownKind
  deriving DecidableEq, Repr

/-- The fields of `source.FileModification` that `session.DidModifyFile`
reads: the URI and the action. -/
structure FileModification where
  uri : URI
  action : FileAction
  deriving DecidableEq, Repr

/-- A view as `DidModifyFile` sees it: identity, root folder, and the
currently installed snapshot (of abstract type `Snap`). -/
structure MView (Snap : Type) where
  vid : Nat
  folder : URI
  snap : Snap
  deriving DecidableEq, Repr

/-- The session state that `DidModifyFile` touches: the view slice and the
overlay table (abstract type `Ov`). -/
structure MSession (Snap Ov : Type) where
  views : List (MView Snap)
  overlays : Ov
  deriving DecidableEq, Repr

/-- The collaborators `DidModifyFile` calls into, abstracted: the
session-level overlay update, `view.Ignore`, `view.getFileLocked` (whose
result carries the file kind), and `view.invalidateContent` (which derives
the view's next snapshot). -/
structure MEnv (Snap Ov Err F : Type) where
  updateOverlay : Ov → FileModification → Except Err Ov
  ignore : Nat → URI → Bool
  ignoredErr : URI → Err
  getFile : Nat → URI → Except Err F
  kindOf : F → FileKind
  invalidate : MView Snap → URI → FileKind → FileAction → Snap

/-- The loop body of `session.DidModifyFile` over the remaining views:
views whose folder is not a prefix of the URI are skipped (they are not in
`viewsOf`); a matching view is checked for `Ignore`, its file is fetched,
and its content invalidated, appending the new snapshot.  On an error the
loop stops; views already invalidated keep their new snapshots. -/
def dmGo {Snap Ov Err F : Type} (env : MEnv Snap Ov Err F)
    (c : FileModification) :
    List (MView Snap) → List (MView Snap) × Except Err (List Snap)
  | [] => ([], .ok [])
  | v :: rest =>
    if v.folder.isPrefixOf c.uri then
      if env.ignore v.vid c.uri then
        (v :: rest, .error (env.ignoredErr c.uri))
      else
        match env.getFile v.vid c.uri with
        | .error e => (v :: rest, .error e)
        | .ok f =>
          let ns := env.invalidate v c.uri (env.kindOf f) c.action
          match dmGo env c rest with
          | (rest', .ok snaps) => ({ v with snap := ns } :: rest', .ok (ns :: snaps))
          | (rest', .error e) => ({ v with snap := ns } :: rest', .error e)
    else
      match dmGo env c rest with
      | (rest', res) => (v :: rest', res)

/-- `session.DidModifyFile`: first the session-specific overlay update (its
failure aborts everything), then one invalidation per view the file belongs
to. -/
def didModifyFile {Snap Ov Err F : Type} (env : MEnv Snap Ov Err F)
    (s : MSession Snap Ov) (c : FileModification) :
    MSession Snap Ov × Except Err (List Snap) :=
  match env.updateOverlay s.overlays c with
  | .error e => (s, .error e)
  | .ok ov =>
    match dmGo env c s.views with
    | (views', res) => (⟨views', ov⟩, res)

/-- `session.viewsOf` on modification-model views: the views whose folder
is a prefix of the URI, in registration order. -/
def mViewsOf {Snap : Type} (uri : URI) (views : List (MView Snap)) :
    List (MView Snap) :=
  views.filter (fun v => v.folder.isPrefixOf uri)

/-- When the loop succeeds it produces exactly one snapshot per matching
view, in order, each obtained by invalidating that view's content for the
modified file with the file's kind. -/
theorem dmGo_ok {Snap Ov Err F : Type} (env : MEnv Snap Ov Err F)
    (c : FileModification) (views : List (MView Snap)) (snaps : List Snap)
    (h : (dmGo env c views).2 = .ok snaps) :
    List.Forall₂
      (fun v sn => ∃ f, env.getFile v.vid c.uri = .ok f ∧
        sn = env.invalidate v c.uri (env.kindOf f) c.action)
      (mViewsOf c.uri views) snaps := by
  induction views generalizing snaps with
  | nil =>
    simp only [dmGo] at h
    obtain rfl : ([] : List Snap) = snaps := by
      simpa using h
    simp [mViewsOf]
  | cons v rest ih =>
    by_cases hpre : v.folder.isPrefixOf c.uri = true
    · by_cases hig : env.ignore v.vid c.uri = true
      · simp [dmGo, hpre, hig] at h
      · cases hgf : env.getFile v.vid c.uri with
        | error e => simp [dmGo, hpre, hig, hgf] at h
        | ok f =>
          rcases hrec : dmGo env c rest with ⟨rest', res⟩
          cases res with
          | error e => simp [dmGo, hpre, hig, hgf, hrec] at h
          | ok snaps' =>
            have hsn : env.invalidate v c.uri (env.kindOf f) c.action ::
                snaps' = snaps := by
              simpa [dmGo, hpre, hig, hgf, hrec] using h
            rw [← hsn]
            have : mViewsOf c.uri (v :: rest) = v :: mViewsOf c.uri rest := by
              simp [mViewsOf, hpre]
            rw [this]
            exact List.Forall₂.cons ⟨f, hgf, rfl⟩
              (ih snaps' (by rw [hrec]))
    · rcases hrec : dmGo env c rest with ⟨rest', res⟩
      have hres : res = .ok snaps := by
        simpa [dmGo, hpre, hrec] using h
      have : mViewsOf c.uri (v :: rest) = mViewsOf c.uri rest := by
        simp [mViewsOf, hpre]
      rw [this]
      exact ih snaps (by rw [hrec, hres])

/-- C1: when `DidModifyFile` succeeds, the returned list has exactly one
new snapshot per view whose root folder is a prefix of the modified URI, in
the views' registration order, each snapshot being the result of
invalidating that view's content for the modified file. -/
theorem didModifyFile_snapshots {Snap Ov Err F : Type}
    (env : MEnv Snap Ov Err F) (s : MSession Snap Ov)
    (c : FileModification) (snaps : List Snap)
    (h : (didModifyFile env s c).2 = .ok snaps) :
    List.Forall₂
      (fun v sn => ∃ f, env.getFile v.vid c.uri = .ok f ∧
        sn = env.invalidate v c.uri (env.kindOf f) c.action)
      (mViewsOf c.uri s.views) snaps := by
  unfold didModifyFile at h
  cases hov : env.updateOverlay s.overlays c with
  | error e =>
    rw [hov] at h
    exact absurd h (by simp)
  | ok ov =>
    rw [hov] at h
    rcases hrec : dmGo env c s.views with ⟨views', res⟩
    rw [hrec] at h
    exact dmGo_ok env c s.views snaps (by rw [hrec]; exact h)

/-- C10: if the overlay update fails, `DidModifyFile` returns that error
with the session unchanged — no view's content is invalidated and no
snapshot is produced. -/
theorem didModifyFile_overlay_error {Snap Ov Err F : Type}
    (env : MEnv Snap Ov Err F) (s : MSession Snap Ov)
    (c : FileModification) (e : Err)
    (h : env.updateOverlay s.overlays c = .error e) :
    didModifyFile env s c = (s, .error e) := by
  unfold didModifyFile
  rw [h]

/-- Witness for `didModifyFile_snapshots`: one view over `/a`; modifying
`/a/x` succeeds and yields exactly that view's invalidation snapshot. -/
theorem didModifyFile_snapshots_witness :
    ((didModifyFile
        (⟨fun ov _ => .ok (ov + 1), fun _ _ => false, fun _ => "ignored",
          fun _ _ => .ok FileKind.goFile, id, fun v _ _ _ => v.vid + 100⟩ :
          MEnv Nat Nat String FileKind)
        ⟨[⟨0, ['/', 'a'], 7⟩], 0⟩ ⟨['/', 'a', '/', 'x'], .aChange⟩).2 =
      .ok [100]) ∧
    List.Forall₂
      (fun (v : MView Nat) (sn : Nat) => ∃ f,
        (⟨fun ov _ => .ok (ov + 1), fun _ _ => false, fun _ => "ignored",
          fun _ _ => .ok FileKind.goFile, id, fun v _ _ _ => v.vid + 100⟩ :
          MEnv Nat Nat String FileKind).getFile v.vid ['/', 'a', '/', 'x']
          = .ok f ∧
        sn = v.vid + 100)
      (mViewsOf ['/', 'a', '/', 'x']
        [(⟨0, ['/', 'a'], 7⟩ : MView Nat)]) [100] :=
  ⟨by rfl,
    didModifyFile_snapshots _ ⟨[⟨0, ['/', 'a'], 7⟩], 0⟩
      ⟨['/', 'a', '/', 'x'], .aChange⟩ [100] (by rfl)⟩

/-- Witness for `didModifyFile_overlay_error`: a failing overlay update
aborts the call, leaving the session untouched. -/
theorem didModifyFile_overlay_error_witness :
    ((⟨fun _ _ => .error "overlay failed", fun _ _ => false,
        fun _ => "ignored", fun _ _ => .ok FileKind.goFile, id,
        fun v _ _ _ => v.vid + 100⟩ :
        MEnv Nat Nat String FileKind).updateOverlay 0
      ⟨['/', 'a', '/', 'x'], .aChange⟩ = .error "overlay failed") ∧
    didModifyFile
      (⟨fun _ _ => .error "overlay failed", fun _ _ => false,
        fun _ => "ignored", fun _ _ => .ok FileKind.goFile, id,
        fun v _ _ _ => v.vid + 100⟩ :
        MEnv Nat Nat String FileKind)
      ⟨[⟨0, ['/', 'a'], 7⟩], 0⟩ ⟨['/', 'a', '/', 'x'], .aChange⟩ =
      (⟨[⟨0, ['/', 'a'], 7⟩], 0⟩, .error "overlay failed") :=
  ⟨by rfl,
    didModifyFile_overlay_error _ ⟨[⟨0, ['/', 'a'], 7⟩], 0⟩
      ⟨['/', 'a', '/', 'x'], .aChange⟩ "overlay failed" (by rfl)⟩

/-- A view as created by `session.createView`: fresh id, name, folder. -/
structure CView where
  vid : Nat
  vname : List Char
  folder : URI
  deriving DecidableEq, Repr

/-- The fresh empty snapshot `createView` allocates for its view. -/
structure CSnap where
  owner : Nat
  deriving DecidableEq, Repr

/-- The collaborators of `createView`: the initial workspace load
(`snapshot.load`) and `checkWorkspacePackages`, plus the error `dropView`
produces when the view to replace is not in the slice. -/
structure CEnv (Meta Err : Type) where
  load : URI → Except Err Meta
  checkWorkspacePackages : Meta → Except Err Unit
  viewNotFound : Err

/-- `session.createView`: builds the view and its empty snapshot, then runs
the initial load and the workspace-package check.  Both failures are logged
and suppressed (`// Suppress all errors.` in the source); every return path
yields the view, its snapshot, and a nil error. -/
def createView {Meta Err : Type} (env : CEnv Meta Err) (nextId : Nat)
    (nm : List Char) (folder : URI) : CView × CSnap × Option Err :=
  let v : CView := ⟨nextId, nm, folder⟩
  match env.load folder with
  | .error _ => (v, ⟨nextId⟩, none)
  | .ok m =>
    match env.checkWorkspacePackages m with
    | .error _ => (v, ⟨nextId⟩, none)
    | .ok _ => (v, ⟨nextId⟩, none)

/-- The session state `NewView`/`updateView` maintain (the memo reset is
covered by the routing model above). -/
structure CSession where
  views : List CView
  nextId : Nat
  deriving DecidableEq, Repr

/-- `session.NewView`: `createView`, early return on its (never-produced)
error, else append the view. -/
def cNewView {Meta Err : Type} (env : CEnv Meta Err) (s : CSession)
    (nm : List Char) (folder : URI) :
    CSession × Except Err (CView × CSnap) :=
  match createView env s.nextId nm folder with
  | (_, _, some e) => (s, .error e)
  | (v, snap, none) =>
    ({ views := s.views ++ [v], nextId := s.nextId + 1 }, .ok (v, snap))

/-- `session.updateView`: `dropView` (error when the view is not in the
slice, modelled by id search) then `createView` with the old view's name and
folder substituted at the old index; the function ends with
`return v, snapshot, nil`, so a (never-produced) `createView` error is not
propagated. -/
def cUpdateView {Meta Err : Type} (env : CEnv Meta Err) (s : CSession)
    (v : CView) : CSession × Except Err (CView × CSnap) :=
  match s.views.findIdx? (fun w => w.vid == v.vid) with
  | none => (s, .error env.viewNotFound)
  | some i =>
    match createView env s.nextId v.vname v.folder with
    | (v', snap, _) =>
      ({ views := s.views.set i v', nextId := s.nextId + 1 }, .ok (v', snap))

/-- `createView` never reports an error, whatever the load and check do. -/
theorem createView_err_none {Meta Err : Type} (env : CEnv Meta Err)
    (i : Nat) (nm : List Char) (folder : URI) :
    (createView env i nm folder).2.2 = none := by
  unfold createView
  cases env.load folder with
  | error e => rfl
  | ok m => cases h : env.checkWorkspacePackages m <;> simp [h]

/-- C9: `createView` returns a nil error even when the initial load or the
workspace-package check fails, so `NewView` always succeeds and `updateView`
succeeds whenever the replaced view is in the session's slice, each
returning the freshly created view and its snapshot. -/
theorem createView_suppresses_errors {Meta Err : Type} (env : CEnv Meta Err)
    (i : Nat) (nm : List Char) (folder : URI) (s : CSession) (v : CView)
    (j : Nat) (hfind : s.views.findIdx? (fun w => w.vid == v.vid) = some j) :
    ((createView env i nm folder).2.2 = none) ∧
    (cNewView env s nm folder).2 =
      .ok ((createView env s.nextId nm folder).1,
        (createView env s.nextId nm folder).2.1) ∧
    (cUpdateView env s v).2 =
      .ok ((createView env s.nextId v.vname v.folder).1,
        (createView env s.nextId v.vname v.folder).2.1) := by
  refine ⟨createView_err_none env i nm folder, ?_, ?_⟩
  · have hnone := createView_err_none env s.nextId nm folder
    unfold cNewView
    rcases h : createView env s.nextId nm folder with ⟨v', snap, err⟩
    rw [h] at hnone
    simp only at hnone
    subst hnone
    simp [h]
  · unfold cUpdateView
    rw [hfind]

/-- Witness for `createView_suppresses_errors`: a workspace whose initial
load always fails; creating and updating views still succeeds. -/
theorem createView_suppresses_errors_witness :
    ((⟨[⟨0, ['v'], ['/', 'a']⟩], 1⟩ : CSession).views.findIdx?
      (fun w => w.vid == (⟨0, ['v'], ['/', 'a']⟩ : CView).vid) = some 0) ∧
    (((createView
        (⟨fun _ => .error "failed to load snapshot", fun _ => .ok (),
          "view not found"⟩ : CEnv Unit String)
        1 ['v'] ['/', 'a']).2.2 = none) ∧
      (cNewView
        (⟨fun _ => .error "failed to load snapshot", fun _ => .ok (),
          "view not found"⟩ : CEnv Unit String)
        ⟨[⟨0, ['v'], ['/', 'a']⟩], 1⟩ ['v'] ['/', 'a']).2 =
        .ok ((createView
          (⟨fun _ => .error "failed to load snapshot", fun _ => .ok (),
            "view not found"⟩ : CEnv Unit String)
          1 ['v'] ['/', 'a']).1,
          (createView
          (⟨fun _ => .error "failed to load snapshot", fun _ => .ok (),
            "view not found"⟩ : CEnv Unit String)
          1 ['v'] ['/', 'a']).2.1) ∧
      (cUpdateView
        (⟨fun _ => .error "failed to load snapshot", fun _ => .ok (),
          "view not found"⟩ : CEnv Unit String)
        ⟨[⟨0, ['v'], ['/', 'a']⟩], 1⟩ ⟨0, ['v'], ['/', 'a']⟩).2 =
        .ok ((createView
          (⟨fun _ => .error "failed to load snapshot", fun _ => .ok (),
            "view not found"⟩ : CEnv Unit String)
          1 ['v'] ['/', 'a']).1,
          (createView
          (⟨fun _ => .error "failed to load snapshot", fun _ => .ok (),
            "view not found"⟩ : CEnv Unit String)
          1 ['v'] ['/', 'a']).2.1)) :=
  ⟨by rfl,
    createView_suppresses_errors _ 1 ['v'] ['/', 'a']
      ⟨[⟨0, ['v'], ['/', 'a']⟩], 1⟩ ⟨0, ['v'], ['/', 'a']⟩ 0 (by rfl)⟩

/-- `session.GetFile`: `readOverlay` consults the session's overlay map;
only when no overlay entry exists does the call fall back to the
cache-level file system (`s.cache.GetFile`, the disk-backed content
store, abstracted as `cacheGetFile`). -/
def sessionGetFile {FH : Type} (overlays : URI → Option FH)
    (cacheGetFile : URI → FileKind → FH) (uri : URI) (kind : FileKind) :
    FH :=
  match overlays uri with
  | some o => o
  | none => cacheGetFile uri kind

/-- C7: when an overlay entry exists for the URI, `GetFile` returns it and
the answer is independent of the cache-level file system (no disk read);
only without an overlay does it fall back to the cache. -/
theorem sessionGetFile_overlay_first {FH : Type}
    (overlays : URI → Option FH) (c1 c2 : URI → FileKind → FH)
    (uri : URI) (kind : FileKind) :
    (∀ o, overlays uri = some o →
      sessionGetFile overlays c1 uri kind = o ∧
      sessionGetFile overlays c1 uri kind =
        sessionGetFile overlays c2 uri kind) ∧
    (overlays uri = none →
      sessionGetFile overlays c1 uri kind = c1 uri kind) := by
  constructor
  · intro o ho
    unfold sessionGetFile
    rw [ho]
    exact ⟨rfl, rfl⟩
  · intro ho
    unfold sessionGetFile
    rw [ho]

/-- Witness for `sessionGetFile_overlay_first`: with an overlay present the
result equals the overlay entry for two different cache functions. -/
theorem sessionGetFile_overlay_first_witness :
    ((fun u => if u = ['a'] then some (1 : Nat) else none) ['a'] =
      some 1) ∧
    sessionGetFile (fun u => if u = ['a'] then some (1 : Nat) else none)
      (fun _ _ => 2) ['a'] FileKind.goFile = 1 ∧
    sessionGetFile (fun u => if u = ['a'] then some (1 : Nat) else none)
      (fun _ _ => 2) ['a'] FileKind.goFile =
      sessionGetFile (fun u => if u = ['a'] then some (1 : Nat) else none)
        (fun _ _ => 3) ['a'] FileKind.goFile :=
  ⟨by decide,
    ((sessionGetFile_overlay_first
      (fun u => if u = ['a'] then some (1 : Nat) else none)
      (fun _ _ => 2) (fun _ _ => 3) ['a'] FileKind.goFile).1 1
      (by decide)).1,
    ((sessionGetFile_overlay_first
      (fun u => if u = ['a'] then some (1 : Nat) else none)
      (fun _ _ => 2) (fun _ _ => 3) ['a'] FileKind.goFile).1 1
      (by decide)).2⟩

end Cache

namespace Source

/-- A Go dynamic value (`interface{}`) as the option-setting code type-
switches on it: nil, bool, string, `map[string]interface{}`,
`[]interface{}`, or some other dynamic type (identified by a tag). -/
inductive GoValue
  | vnil
  | vbool (b : Bool)
  | vstring (s : String)
  | vmap (entries : List (String × GoValue))
  | vlist (xs : List GoValue)
  | vother (tag : String)

/-- `source.HoverKind`. -/
inductive HoverKind
  | singleLine
  | noDocumentation
  | synopsisDocumentation
  | fullDocumentation
  | structured
  deriving DecidableEq, Repr

/-- `protocol.TextDocumentSyncKind`, as far as `set` uses it. -/
inductive TextDocumentSyncKind
  | full
  | incremental
  deriving DecidableEq, Repr

/-- The fields of `source.CompletionOptions` that `Options.set` writes.
`Budget` (a `time.Duration`) is modelled in nanoseconds. -/
structure CompletionOptions where
  deep : Bool := false
  fuzzyMatching : Bool := false
  caseSensitive : Bool := false
  unimported : Bool := false
  documentation : Bool := false
  placeholders : Bool := false
  budget : Nat := 0
  deriving DecidableEq, Repr

/-- The fields of `source.Options` that `Options.set` writes.  Fields `set`
never touches (capability flags, analyzers, diff function, code-action
tables) are omitted from the model. -/
structure Options where
  env : List String := []
  buildFlags : List String := []
  hoverKind : HoverKind := .synopsisDocumentation
  disabledAnalyses : List String := []
  staticCheck : Bool := false
  goDiff : Bool := true
  watchFileChanges : Bool := false
  textDocumentSyncKind : TextDocumentSyncKind := .incremental
  completion : CompletionOptions := {}
  localPrefix : String := ""
  verboseOutput : Bool := false
  tempModfile : Bool := false
  linkTarget : String := ""
  deriving DecidableEq, Repr

/-- `source.OptionState`. -/
inductive OptionState
  | optionHandled
  | optionDeprecated
  | optionUnexpected
  deriving DecidableEq, Repr

/-- `source.OptionResult`: the per-option outcome, carrying the option's
name and offending value; error messages are abbreviated (the model does
not reproduce `fmt` formatting). -/
structure OptionResult where
  name : String := ""
  value : GoValue := .vnil
  error : Option String := none
  state : OptionState := .optionHandled
  replacement : String := ""

/-- Model of `fmt.Sprint` / `%s` rendering of a dynamic value (external
stdlib behavior; nothing below depends on the rendered text). -/
def goSprint : GoValue → String
  | .vnil => "<nil>"
  | .vbool true => "true"
  | .vbool false => "false"
  | .vstring s => s
  | .vmap _ => "map"
  | .vlist _ => "list"
  | .vother t => t

/-- `OptionResult.errorf`: record an error on the result. -/
def OptionResult.errorf (r : OptionResult) (msg : String) : OptionResult :=
  { r with error := some msg }

/-- `OptionResult.asBool`: the value as a bool, recording a type error
otherwise. -/
def OptionResult.asBool (r : OptionResult) : Option Bool × OptionResult :=
  match r.value with
  | .vbool b => (some b, r)
  | _ => (none, r.errorf ("Invalid type for bool option " ++ r.name))

/-- `OptionResult.asString`: the value as a string, recording a type error
otherwise. -/
def OptionResult.asString (r : OptionResult) : Option String × OptionResult :=
  match r.value with
  | .vstring s => (some s, r)
  | _ => (none, r.errorf ("Invalid type for string option " ++ r.name))

/-- `OptionResult.setBool`: write the bool into the given field when the
value is a bool, otherwise leave the options alone with the type error
recorded. -/
def setBoolOpt (r : OptionResult) (o : Options)
    (apply : Options → Bool → Options) : Options × OptionResult :=
  match r.asBool with
  | (some b, r') => (apply o b, r')
  | (none, r') => (o, r')

/-- `Options.set`, translated case by case from `options.go`.
`parseDuration` models `time.ParseDuration` (external stdlib), `none`
meaning a parse failure.  Go map iteration (for the `env` case) is taken in
association-list order. -/
def Options.set (parseDuration : String → Option Nat) (o : Options)
    (name : String) (value : GoValue) : Options × OptionResult :=
  let result : OptionResult := { name := name, value := value }
  match name with
  | "env" =>
    match value with
    | .vmap menv =>
      ({ o with env :=
          o.env ++ menv.map (fun kv => kv.1 ++ "=" ++ goSprint kv.2) },
        result)
    | _ => (o, result.errorf "invalid config gopls.env type")
  | "buildFlags" =>
    match value with
    | .vlist iflags => ({ o with buildFlags := iflags.map goSprint }, result)
    | _ => (o, result.errorf "invalid config gopls.buildFlags type")
  | "noIncrementalSync" =>
    match result.asBool with
    | (some true, r') => ({ o with textDocumentSyncKind := .full }, r')
    | (some false, r') => (o, r')
    | (none, r') => (o, r')
  | "watchFileChanges" =>
    setBoolOpt result o (fun o b => { o with watchFileChanges := b })
  | "completionDocumentation" =>
    setBoolOpt result o (fun o b =>
      { o with completion := { o.completion with documentation := b } })
  | "usePlaceholders" =>
    setBoolOpt result o (fun o b =>
      { o with completion := { o.completion with placeholders := b } })
  | "deepCompletion" =>
    setBoolOpt result o (fun o b =>
      { o with completion := { o.completion with deep := b } })
  | "fuzzyMatching" =>
    setBoolOpt result o (fun o b =>
      { o with completion := { o.completion with fuzzyMatching := b } })
  | "caseSensitiveCompletion" =>
    setBoolOpt result o (fun o b =>
      { o with completion := { o.completion with caseSensitive := b } })
  | "completeUnimported" =>
    setBoolOpt result o (fun o b =>
      { o with completion := { o.completion with unimported := b } })
  | "completionBudget" =>
    match result.asString with
    | (some v, r') =>
      match parseDuration v with
      | some d =>
        ({ o with completion := { o.completion with budget := d } }, r')
      | none => (o, r'.errorf ("failed to parse duration " ++ v))
    | (none, r') => (o, r')
  | "hoverKind" =>
    match value with
    | .vstring hk =>
      match hk with
      | "NoDocumentation" => ({ o with hoverKind := .noDocumentation }, result)
      | "SingleLine" => ({ o with hoverKind := .singleLine }, result)
      | "SynopsisDocumentation" =>
        ({ o with hoverKind := .synopsisDocumentation }, result)
      | "FullDocumentation" =>
        ({ o with hoverKind := .fullDocumentation }, result)
      | "Structured" => ({ o with hoverKind := .structured }, result)
      | _ => (o, result.errorf "Unsupported hover kind")
    | _ => (o, result.errorf "invalid type for string option hoverKind")
  | "linkTarget" =>
    match value with
    | .vstring lt => ({ o with linkTarget := lt }, result)
    | _ => (o, result.errorf "invalid type for string option linkTarget")
  | "experimentalDisabledAnalyses" =>
    match value with
    | .vlist das =>
      ({ o with disabledAnalyses :=
          das.foldl (fun acc a =>
            if goSprint a ∈ acc then acc else acc ++ [goSprint a]) [] },
        result)
    | _ =>
      (o, result.errorf "Invalid type for list option disabledAnalyses")
  | "staticcheck" => setBoolOpt result o (fun o b => { o with staticCheck := b })
  | "go-diff" => setBoolOpt result o (fun o b => { o with goDiff := b })
  | "local" =>
    match value with
    | .vstring lp => ({ o with localPrefix := lp }, result)
    | _ => (o, result.errorf "invalid type for string option local")
  | "verboseOutput" =>
    setBoolOpt result o (fun o b => { o with verboseOutput := b })
  | "tempModfile" =>
    setBoolOpt result o (fun o b => { o with tempModfile := b })
  | "wantSuggestedFixes" => (o, { result with state := .optionDeprecated })
  | "disableDeepCompletion" =>
    (o, { result with state := .optionDeprecated, replacement := "deepCompletion" })
  | "disableFuzzyMatching" =>
    (o, { result with state := .optionDeprecated, replacement := "fuzzyMatching" })
  | "wantCompletionDocumentation" =>
    (o, { result with state := .optionDeprecated, replacement := "completionDocumentation" })
  | "wantUnimportedCompletions" =>
    (o, { result with state := .optionDeprecated, replacement := "completeUnimported" })
  | _ => (o, { result with state := .optionUnexpected })

/-- `SetOptions`: nil produces no results; a `map[string]interface{}`
produces one result per entry via `Options.set` (map iteration modelled in
list order — Go leaves the order unspecified); any other type produces a
single type-error result without a name. -/
def SetOptions (parseDuration : String → Option Nat) (o : Options)
    (opts : GoValue) : Options × List OptionResult :=
  match opts with
  | .vnil => (o, [])
  | .vmap entries =>
    entries.foldl
      (fun (acc : Options × List OptionResult) kv =>
        match Options.set parseDuration acc.1 kv.1 kv.2 with
        | (o', r) => (o', acc.2 ++ [r]))
      (o, [])
  | other =>
    (o, [{ value := other, error := some "Invalid options type" }])

/-- Every branch of `set` builds its result from
`OptionResult{Name: name, Value: value}`, touching only the error, state
and replacement fields: the result always carries the option's name and its
value. -/
theorem set_result_name_value (pd : String → Option Nat) (o : Options)
    (n : String) (v : GoValue) :
    ((Options.set pd o n v).2).name = n ∧
    ((Options.set pd o n v).2).value = v := by
  simp only [Options.set]
  split <;> cases v <;> (repeat' split) <;>
    simp_all [setBoolOpt, OptionResult.asBool, OptionResult.asString,
      OptionResult.errorf, @eq_comm OptionResult]

/-- A `set` call that records an error leaves the options unchanged. -/
theorem set_error_unchanged (pd : String → Option Nat) (o : Options)
    (n : String) (v : GoValue)
    (herr : ((Options.set pd o n v).2).error.isSome = true) :
    (Options.set pd o n v).1 = o := by
  revert herr
  simp only [Options.set]
  split <;> cases v <;> (repeat' split) <;>
    simp_all [setBoolOpt, OptionResult.asBool, OptionResult.asString,
      OptionResult.errorf, @eq_comm OptionResult]

/-- The per-option result (name, value, error, state, replacement) does not
depend on the current options, only on the option name, the value and the
duration parser. -/
theorem set_result_indep (pd : String → Option Nat) (o o' : Options)
    (n : String) (v : GoValue) :
    (Options.set pd o n v).2 = (Options.set pd o' n v).2 := by
  simp only [Options.set]
  split <;> cases v <;> (repeat' split) <;>
    simp_all [setBoolOpt, OptionResult.asBool, OptionResult.asString,
      OptionResult.errorf, @eq_comm OptionResult]

/-- The options after applying a batch entry by entry (the first component
of `SetOptions`' fold). -/
def optionsAfter (pd : String → Option Nat) :
    List (String × GoValue) → Options → Options
  | [], o => o
  | kv :: rest, o => optionsAfter pd rest (Options.set pd o kv.1 kv.2).1

/-- The per-entry results of a batch (the second component of
`SetOptions`' fold). -/
def resultsOf (pd : String → Option Nat) :
    List (String × GoValue) → Options → List OptionResult
  | [], _ => []
  | kv :: rest, o =>
    (Options.set pd o kv.1 kv.2).2 ::
      resultsOf pd rest (Options.set pd o kv.1 kv.2).1

/-- `SetOptions`' fold computes `optionsAfter` and appends `resultsOf`. -/
theorem setOptions_fold_spec (pd : String → Option Nat)
    (entries : List (String × GoValue)) (o : Options)
    (acc : List OptionResult) :
    entries.foldl
      (fun (acc : Options × List OptionResult) kv =>
        match Options.set pd acc.1 kv.1 kv.2 with
        | (o', r) => (o', acc.2 ++ [r]))
      (o, acc)
      = (optionsAfter pd entries o, acc ++ resultsOf pd entries o) := by
  induction entries generalizing o acc with
  | nil => simp [optionsAfter, resultsOf]
  | cons kv rest ih =>
    simp only [List.foldl_cons, optionsAfter, resultsOf]
    rw [ih]
    simp

/-- Every batch entry gets a result carrying its name and value. -/
theorem resultsOf_forall₂ (pd : String → Option Nat)
    (entries : List (String × GoValue)) (o : Options) :
    List.Forall₂ (fun kv r => r.name = kv.1 ∧ r.value = kv.2)
      entries (resultsOf pd entries o) := by
  induction entries generalizing o with
  | nil => exact List.Forall₂.nil
  | cons kv rest ih =>
    exact List.Forall₂.cons (set_result_name_value pd o kv.1 kv.2) (ih _)

/-- Batches compose by sequencing. -/
theorem optionsAfter_append (pd : String → Option Nat)
    (xs ys : List (String × GoValue)) (o : Options) :
    optionsAfter pd (xs ++ ys) o = optionsAfter pd ys (optionsAfter pd xs o) := by
  induction xs generalizing o with
  | nil => rfl
  | cons kv rest ih => simp [optionsAfter, ih]

/-- Dropping an entry whose `set` records an error from a batch does not
change the resulting options. -/
theorem optionsAfter_skip_error (pd : String → Option Nat)
    (xs ys : List (String × GoValue)) (n : String) (v : GoValue)
    (o o0 : Options)
    (herr : ((Options.set pd o0 n v).2).error.isSome = true) :
    optionsAfter pd (xs ++ (n, v) :: ys) o = optionsAfter pd (xs ++ ys) o := by
  rw [optionsAfter_append, optionsAfter_append]
  have herr' :
      ((Options.set pd (optionsAfter pd xs o) n v).2).error.isSome = true := by
    rw [set_result_indep pd (optionsAfter pd xs o) o0 n v]
    exact herr
  simp [optionsAfter,
    set_error_unchanged pd (optionsAfter pd xs o) n v herr']

/-- C8: a map batch produces one `OptionResult` per entry carrying that
option's name and its (possibly offending) value, and an entry whose value
is invalid (its `set` records an error) leaves the options unchanged, so
the remaining entries of the batch are applied exactly as if the invalid
entry were absent. -/
theorem setOptions_per_entry_isolation (pd : String → Option Nat)
    (o o0 : Options) (xs ys : List (String × GoValue)) (n : String)
    (v : GoValue)
    (herr : ((Options.set pd o0 n v).2).error.isSome = true) :
    (∀ entries : List (String × GoValue),
      List.Forall₂ (fun kv r => r.name = kv.1 ∧ r.value = kv.2)
        entries (SetOptions pd o (.vmap entries)).2) ∧
    (SetOptions pd o (.vmap (xs ++ (n, v) :: ys))).1 =
      (SetOptions pd o (.vmap (xs ++ ys))).1 := by
  constructor
  · intro entries
    unfold SetOptions
    dsimp only
    rw [setOptions_fold_spec pd entries o []]
    simpa using resultsOf_forall₂ pd entries o
  · unfold SetOptions
    dsimp only
    rw [setOptions_fold_spec pd (xs ++ (n, v) :: ys) o [],
      setOptions_fold_spec pd (xs ++ ys) o []]
    exact optionsAfter_skip_error pd xs ys n v o o0 herr

/-- Witness for `setOptions_per_entry_isolation`: a batch with a valid
`staticcheck`, an invalid `hoverKind` (a bool where a string is expected)
and a valid `go-diff`; both valid options are applied, the invalid one gets
its error, and the batch behaves as if the invalid entry were absent. -/
theorem setOptions_per_entry_isolation_witness :
    (((Options.set (fun _ => none) {} "hoverKind"
        (.vbool true)).2).error.isSome = true) ∧
    ((∀ entries : List (String × GoValue),
      List.Forall₂ (fun kv r => r.name = kv.1 ∧ r.value = kv.2)
        entries (SetOptions (fun _ => none) {} (.vmap entries)).2) ∧
    (SetOptions (fun _ => none) {}
      (.vmap ([("staticcheck", .vbool true)] ++
        ("hoverKind", .vbool true) :: [("go-diff", .vbool false)]))).1 =
      (SetOptions (fun _ => none) {}
        (.vmap ([("staticcheck", .vbool true)] ++
          [("go-diff", .vbool false)]))).1) ∧
    ((SetOptions (fun _ => none) {}
      (.vmap ([("staticcheck", .vbool true)] ++
        ("hoverKind", .vbool true) :: [("go-diff", .vbool false)]))).1.staticCheck
        = true ∧
     (SetOptions (fun _ => none) {}
      (.vmap ([("staticcheck", .vbool true)] ++
        ("hoverKind", .vbool true) :: [("go-diff", .vbool false)]))).1.goDiff
        = false) :=
  ⟨by rfl,
    setOptions_per_entry_isolation (fun _ => none) {} {}
      [("staticcheck", .vbool true)] [("go-diff", .vbool false)]
      "hoverKind" (.vbool true) (by rfl),
    by rfl, by rfl⟩

end Source

namespace Memoize

/-!
Modelled from the spec: the `memoize` Handle source is not under `src/`
(only the spec describes it).  Spec §4.2 and §9 describe the primitive as a
state machine `{unstarted, in-flight, done(value-or-error)}` protected by a
lock with a broadcast for waiters; callers of `get` either start the
computation, join an in-flight one, or read the published result.  The
computation is deterministic, so its outcome is a fixed `comp : α` (with
`α` free, `comp` covers both a value and a failure).
-/

/-- Modelled from the spec: the Handle's slot —
`{unstarted, in-flight, done(value-or-error)}`. -/
inductive Slot (α : Type)
  | unstarted
  | inflight
  | done (r : α)
  deriving DecidableEq, Repr

/-- Modelled from the spec: one caller's phase in `get` — about to call,
executing the computation, waiting on the broadcast, or finished with a
result. -/
inductive CallerPhase (α : Type)
  | start
  | running
  | waiting
  | finished (r : α)
  deriving DecidableEq, Repr

/-- Modelled from the spec: the joint state of a fresh Handle and `n`
concurrent callers, plus a counter of how many times the underlying
computation has been started. -/
structure HandleState (α : Type) (n : Nat) where
  slot : Slot α
  callers : Fin n → CallerPhase α
  execs : Nat

/-- The fresh-Handle initial state: slot unstarted, every caller about to
call `get`, zero executions. -/
def initHandleState (α : Type) (n : Nat) : HandleState α n :=
  ⟨.unstarted, fun _ => .start, 0⟩

/-- Modelled from the spec: the atomic transitions under the Handle's lock.
A caller finding the slot unstarted starts the computation; one finding it
in-flight waits; one finding it done reads the result; the runner publishes
`comp` and broadcasts; a waiter wakes to the published result. -/
inductive HandleStep {α : Type} {n : Nat} (comp : α) :
    HandleState α n → HandleState α n → Prop
  | begin {s} (i : Fin n) :
      s.callers i = .start → s.slot = .unstarted →
      HandleStep comp s
        ⟨.inflight, Function.update s.callers i .running, s.execs + 1⟩
  | joinWait {s} (i : Fin n) :
      s.callers i = .start → s.slot = .inflight →
      HandleStep comp s
        ⟨s.slot, Function.update s.callers i .waiting, s.execs⟩
  | joinDone {s} (i : Fin n) (r : α) :
      s.callers i = .start → s.slot = .done r →
      HandleStep comp s
        ⟨s.slot, Function.update s.callers i (.finished r), s.execs⟩
  | publish {s} (i : Fin n) :
      s.callers i = .running →
      HandleStep comp s
        ⟨.done comp, Function.update s.callers i (.finished comp), s.execs⟩
  | wake {s} (i : Fin n) (r : α) :
      s.callers i = .waiting → s.slot = .done r →
      HandleStep comp s
        ⟨s.slot, Function.update s.callers i (.finished r), s.execs⟩

/-- The inductive invariant of the Handle state machine. -/
structure HandleInv {α : Type} {n : Nat} (comp : α) (s : HandleState α n) :
    Prop where
  execsLe : s.execs ≤ 1
  unstartedExecs : s.slot = .unstarted → s.execs = 0
  startedExecs : s.slot ≠ .unstarted → s.execs = 1
  doneComp : ∀ r, s.slot = .done r → r = comp
  runningInflight : ∀ i, s.callers i = .running → s.slot = .inflight
  runningUnique : ∀ i j, s.callers i = .running → s.callers j = .running →
    i = j
  finishedComp : ∀ i r, s.callers i = .finished r →
    r = comp ∧ s.slot = .done comp

/-- The initial state satisfies the invariant. -/
theorem handleInv_init (α : Type) (n : Nat) (comp : α) :
    HandleInv comp (initHandleState α n) := by
  refine ⟨?_, ?_, ?_, ?_, ?_, ?_, ?_⟩ <;>
    simp [initHandleState]

/-- Every transition preserves the invariant. -/
theorem handleInv_step {α : Type} {n : Nat} {comp : α}
    {s t : HandleState α n} (hst : HandleStep comp s t)
    (hs : HandleInv comp s) : HandleInv comp t := by
  cases hst with
  | begin i hstart hslot =>
    refine ⟨?_, ?_, ?_, ?_, ?_, ?_, ?_⟩ <;> (try dsimp only)
    · have h0 := hs.unstartedExecs hslot
      simp [h0]
    · intro h
      exact absurd h (by simp)
    · intro _
      have h0 := hs.unstartedExecs hslot
      simp [h0]
    · intro r h
      exact absurd h (by simp)
    · intro j _
      rfl
    · intro j k hj hk
      by_cases hji : j = i
      · by_cases hki : k = i
        · rw [hji, hki]
        · rw [Function.update_noteq hki] at hk
          have := hs.runningInflight k hk
          rw [hslot] at this
          exact absurd this (by simp)
      · rw [Function.update_noteq hji] at hj
        have := hs.runningInflight j hj
        rw [hslot] at this
        exact absurd this (by simp)
    · intro j r hj
      by_cases hji : j = i
      · rw [hji, Function.update_same] at hj
        exact absurd hj (by simp)
      · rw [Function.update_noteq hji] at hj
        have := (hs.finishedComp j r hj).2
        rw [hslot] at this
        exact absurd this (by simp)
  | joinWait i hstart hslot =>
    refine ⟨hs.execsLe, hs.unstartedExecs, hs.startedExecs, hs.doneComp,
      ?_, ?_, ?_⟩ <;> (try dsimp only)
    · intro j hj
      by_cases hji : j = i
      · rw [hji, Function.update_same] at hj
        exact absurd hj (by simp)
      · rw [Function.update_noteq hji] at hj
        exact hs.runningInflight j hj
    · intro j k hj hk
      by_cases hji : j = i
      · rw [hji, Function.update_same] at hj
        exact absurd hj (by simp)
      · by_cases hki : k = i
        · rw [hki, Function.update_same] at hk
          exact absurd hk (by simp)
        · rw [Function.update_noteq hji] at hj
          rw [Function.update_noteq hki] at hk
          exact hs.runningUnique j k hj hk
    · intro j r hj
      by_cases hji : j = i
      · rw [hji, Function.update_same] at hj
        exact absurd hj (by simp)
      · rw [Function.update_noteq hji] at hj
        exact hs.finishedComp j r hj
  | joinDone i r hstart hslot =>
    have hrc : r = comp := hs.doneComp r hslot
    refine ⟨hs.execsLe, hs.unstartedExecs, hs.startedExecs, hs.doneComp,
      ?_, ?_, ?_⟩ <;> (try dsimp only)
    · intro j hj
      by_cases hji : j = i
      · rw [hji, Function.update_same] at hj
        exact absurd hj (by simp)
      · rw [Function.update_noteq hji] at hj
        exact hs.runningInflight j hj
    · intro j k hj hk
      by_cases hji : j = i
      · rw [hji, Function.update_same] at hj
        exact absurd hj (by simp)
      · by_cases hki : k = i
        · rw [hki, Function.update_same] at hk
          exact absurd hk (by simp)
        · rw [Function.update_noteq hji] at hj
          rw [Function.update_noteq hki] at hk
          exact hs.runningUnique j k hj hk
    · intro j r' hj
      by_cases hji : j = i
      · rw [hji, Function.update_same] at hj
        injection hj with h
        subst h
        subst hrc
        exact ⟨rfl, hslot⟩
      · rw [Function.update_noteq hji] at hj
        exact hs.finishedComp j r' hj
  | publish i hrun =>
    have hinf := hs.runningInflight i hrun
    refine ⟨hs.execsLe, ?_, ?_, ?_, ?_, ?_, ?_⟩ <;> (try dsimp only)
    · intro h
      exact absurd h (by simp)
    · intro _
      apply hs.startedExecs
      rw [hinf]
      simp
    · intro r h
      injection h with h
      exact h.symm
    · intro j hj
      by_cases hji : j = i
      · rw [hji, Function.update_same] at hj
        exact absurd hj (by simp)
      · rw [Function.update_noteq hji] at hj
        exact absurd (hs.runningUnique j i hj hrun) hji
    · intro j k hj hk
      by_cases hji : j = i
      · rw [hji, Function.update_same] at hj
        exact absurd hj (by simp)
      · rw [Function.update_noteq hji] at hj
        exact absurd (hs.runningUnique j i hj hrun) hji
    · intro j r' hj
      by_cases hji : j = i
      · rw [hji, Function.update_same] at hj
        injection hj with h
        exact ⟨h.symm, rfl⟩
      · rw [Function.update_noteq hji] at hj
        have := (hs.finishedComp j r' hj).2
        rw [hinf] at this
        exact absurd this (by simp)
  | wake i r hwait hslot =>
    have hrc : r = comp := hs.doneComp r hslot
    refine ⟨hs.execsLe, hs.unstartedExecs, hs.startedExecs, hs.doneComp,
      ?_, ?_, ?_⟩ <;> (try dsimp only)
    · intro j hj
      by_cases hji : j = i
      · rw [hji, Function.update_same] at hj
        exact absurd hj (by simp)
      · rw [Function.update_noteq hji] at hj
        exact hs.runningInflight j hj
    · intro j k hj hk
      by_cases hji : j = i
      · rw [hji, Function.update_same] at hj
        exact absurd hj (by simp)
      · by_cases hki : k = i
        · rw [hki, Function.update_same] at hk
          exact absurd hk (by simp)
        · rw [Function.update_noteq hji] at hj
          rw [Function.update_noteq hki] at hk
          exact hs.runningUnique j k hj hk
    · intro j r' hj
      by_cases hji : j = i
      · rw [hji, Function.update_same] at hj
        injection hj with h
        subst h
        subst hrc
        exact ⟨rfl, hslot⟩
      · rw [Function.update_noteq hji] at hj
        exact hs.finishedComp j r' hj

/-- The invariant holds in every reachable state. -/
theorem handleInv_reach {α : Type} {n : Nat} {comp : α}
    {s : HandleState α n}
    (h : Relation.ReflTransGen (HandleStep comp) (initHandleState α n) s) :
    HandleInv comp s := by
  induction h with
  | refl => exact handleInv_init α n comp
  | tail hab hbc ih => exact handleInv_step hbc ih

/-- C2 (spec-modelled): against a fresh Handle with `n` concurrent callers,
in every reachable state the computation has started at most once, every
caller that finished observed the published result `comp` (the same value
or the same failure for everyone, published before any caller finishes),
and once all callers have finished the computation has executed exactly
once. -/
theorem handle_get_exactly_once {α : Type} {n : Nat} (comp : α)
    (s : HandleState α n)
    (h : Relation.ReflTransGen (HandleStep comp) (initHandleState α n) s) :
    s.execs ≤ 1 ∧
    (∀ i r, s.callers i = .finished r →
      r = comp ∧ s.slot = .done comp) ∧
    ((∀ i : Fin n, ∃ r, s.callers i = .finished r) → 0 < n →
      s.execs = 1) := by
  have hinv := handleInv_reach h
  refine ⟨hinv.execsLe, hinv.finishedComp, ?_⟩
  intro hall hn
  obtain ⟨r, hr⟩ := hall ⟨0, hn⟩
  have hdone := (hinv.finishedComp _ r hr).2
  apply hinv.startedExecs
  rw [hdone]
  simp

/-- The final state of a concrete two-caller run of the Handle machine:
caller 0 starts the computation and publishes `true`, caller 1 joins the
done slot. -/
def handleRunFinal : HandleState Bool 2 :=
  ⟨Slot.done true,
    Function.update (Function.update (Function.update
      (fun _ => CallerPhase.start) (0 : Fin 2) CallerPhase.running)
      (0 : Fin 2) (CallerPhase.finished true)) (1 : Fin 2)
      (CallerPhase.finished true),
    1⟩

/-- Witness for `handle_get_exactly_once`: in the concrete two-caller run
both callers finish with the published result and the computation ran
exactly once. -/
theorem handle_get_exactly_once_witness :
    handleRunFinal.execs ≤ 1 ∧
    (∀ i r, handleRunFinal.callers i = .finished r →
      r = true ∧ handleRunFinal.slot = .done true) ∧
    ((∀ i : Fin 2, ∃ r, handleRunFinal.callers i = .finished r) → 0 < 2 →
      handleRunFinal.execs = 1) := by
  have d1 : Relation.ReflTransGen (HandleStep (true : Bool))
      (initHandleState Bool 2)
      (⟨Slot.inflight,
        Function.update (fun _ => CallerPhase.start) (0 : Fin 2)
          CallerPhase.running, 1⟩ : HandleState Bool 2) :=
    Relation.ReflTransGen.single (HandleStep.begin 0 rfl rfl)
  have d2 := d1.tail (HandleStep.publish 0 (by decide))
  exact handle_get_exactly_once true handleRunFinal
    (d2.tail (HandleStep.joinDone 1 true (by decide) (by decide)))

end Memoize
